import Mathlib

/-!
Verification development for the logitron trace subsystem: the
`TraceIdExtractor` (src/trace/trace-extractor.ts), the
`TraceContextManager` (src/trace/trace-context.ts) and the
`LogitronTraceMiddleware` (src/nestjs/middlewares/logitron-trace.middleware.ts)
are shallowly embedded below and their documented properties are proved or
refuted.
-/

namespace Logitron

/-! ## A model of JavaScript values

Request `query`, `body` and `params` fields are `Record<string, any>`; we model
the relevant JavaScript values.  Objects are association lists (insertion
order preserved, as `Object.entries` iteration order for string keys). -/

inductive JsVal where
  | str (s : String)
  | num (n : Int)
  | boolean (b : Bool)
  | null
  | obj (fields : List (String × JsVal))
  | arr (elems : List JsVal)
deriving Repr

/-- JavaScript truthiness restricted to our value model: `""`, `0`, `false`
and `null`/`undefined` are falsy, objects and arrays are always truthy. -/
def jsTruthy : JsVal → Bool
  | .str s => s ≠ ""
  | .num n => n ≠ 0
  | .boolean b => b
  | .null => false
  | .obj _ => true
  | .arr _ => true

/-- A JavaScript plain object: association list of fields. -/
abbrev JsObj := List (String × JsVal)

/-- Property read `o[k]`; `none` models `undefined`. -/
def jsGet (o : JsObj) (k : String) : Option JsVal :=
  (o.find? (fun kv => kv.1 == k)).map (·.2)

/-- Property read on an arbitrary value: field of an object, decimal index of
an array, `undefined` on everything else.  (Exotic properties such as
`length` on arrays or indices on strings do not occur at the configured
field names and are not modelled.) -/
def jsIndex : JsVal → String → Option JsVal
  | .obj fields, k => jsGet fields k
  | .arr elems, k => k.toNat? >>= fun i => elems[i]?
  | _, _ => none

/-- JavaScript truthiness of a `string | undefined` value (`undefined` and
`""` are falsy). -/
def strTruthy : Option String → Bool
  | some s => s ≠ ""
  | none => false

/-- ASCII lower-casing of one character — the effect of JavaScript
`toLowerCase()` on the ASCII header names this library deals in. -/
def asciiLower (c : Char) : Char :=
  if 65 ≤ c.toNat ∧ c.toNat ≤ 90 then Char.ofNat (c.toNat + 32) else c

/-- `s.toLowerCase()` on ASCII strings, written over the character list so
it is executable by the kernel. -/
def strLower (s : String) : String :=
  ⟨s.data.map asciiLower⟩

/-- `path.split('.')` for the one-character separator, written structurally:
splits at every dot, keeping empty segments, as JavaScript does. -/
def splitOnDotAux : List Char → List Char → List String
  | [], acc => [⟨acc.reverse⟩]
  | c :: cs, acc =>
    if c = '.' then (⟨acc.reverse⟩ : String) :: splitOnDotAux cs []
    else splitOnDotAux cs (c :: acc)

/-- `path.split('.')`. -/
def splitOnDot (s : String) : List String :=
  splitOnDotAux s.data []

/-! ## TraceIdExtractor (src/trace/trace-extractor.ts)

`headers` is a `Record<string, string | string[]>`; each configured location
holds `string | string[]` field names (`KeySpec`). -/

inductive HeaderValue where
  | single (s : String)
  | multi (l : List String)
deriving Repr, DecidableEq

abbrev Headers := List (String × HeaderValue)

/-- A `string | string[]` bundle of configured field names. -/
inductive KeySpec where
  | one (k : String)
  | many (ks : List String)
deriving Repr, DecidableEq

/-- `Array.isArray(x) ? x : [x]` — the normalization every extraction phase
performs on its configured key spec. -/
def KeySpec.toKeys : KeySpec → List String
  | .one k => [k]
  | .many ks => ks

/-- `TraceIdExtractorConfig`: optional key specs per source location. -/
structure TraceIdExtractorConfig where
  header : Option KeySpec := none
  query : Option KeySpec := none
  body : Option KeySpec := none
  params : Option KeySpec := none
deriving Repr, DecidableEq

/-- The extractor's built-in default header list. -/
def defaultHeaderKeys : List String :=
  ["x-trace-id", "x-request-id", "x-correlation-id"]

/-- The `TraceIdExtractor` constructor:
`this.config = { header: ['x-trace-id','x-request-id','x-correlation-id'], ...config }`
— the default header list applies only when the supplied config has no
`header` field. -/
def mkExtractor (config : TraceIdExtractorConfig) : TraceIdExtractorConfig :=
  { config with header := some (config.header.getD (.many defaultHeaderKeys)) }

/-- `getHeaderValue`: case-insensitive scan of the header entries; the first
entry whose key lower-cases to the probe's lower-case form is taken; an array
value contributes its element `[0]` (`undefined` when the array is empty). -/
def getHeaderValue (headers : Headers) (key : String) : Option String :=
  match headers.find? (fun kv => strLower kv.1 == strLower key) with
  | some (_, .single v) => some v
  | some (_, .multi l) => l.head?
  | none => none

/-- The header loop of `extractFromHeaders`: for each configured key in
declared order, `const value = getHeaderValue(headers, key); if (value) return value;`. -/
def findHeaderKey (headers : Headers) : List String → Option String
  | [] => none
  | key :: rest =>
    let value := getHeaderValue headers key
    if strTruthy value then value else findHeaderKey headers rest

/-- `extractFromHeaders`: `undefined` when headers or the header config are
absent, otherwise the first truthy configured header value. -/
def extractFromHeaders (headers : Option Headers) (cfgHeader : Option KeySpec) :
    Option String :=
  match headers, cfgHeader with
  | some hs, some spec => findHeaderKey hs spec.toKeys
  | _, _ => none

/-- The query loop: `const value = query[key]; if (value && typeof value === 'string') return value;`. -/
def findQueryKey (query : JsObj) : List String → Option String
  | [] => none
  | key :: rest =>
    match jsGet query key with
    | some (.str s) => if s ≠ "" then some s else findQueryKey query rest
    | _ => findQueryKey query rest

/-- `extractFromQuery`. -/
def extractFromQuery (query : Option JsObj) (cfgQuery : Option KeySpec) :
    Option String :=
  match query, cfgQuery with
  | some q, some spec => findQueryKey q spec.toKeys
  | _, _ => none

/-- `getNestedValue`: dotted-path lookup,
`path.split('.').reduce((current, key) => current && current[key] !== undefined ? current[key] : undefined, obj)`. -/
def getNestedValue (obj : JsObj) (path : String) : Option JsVal :=
  (splitOnDot path).foldl
    (fun current key =>
      match current with
      | some c => if jsTruthy c then jsIndex c key else none
      | none => none)
    (some (.obj obj))

/-- The body loop: nested lookup per configured (possibly dotted) key;
accepted only when the resolved value is a truthy string. -/
def findBodyKey (body : JsObj) : List String → Option String
  | [] => none
  | key :: rest =>
    match getNestedValue body key with
    | some (.str s) => if s ≠ "" then some s else findBodyKey body rest
    | _ => findBodyKey body rest

/-- `extractFromBody`. -/
def extractFromBody (body : Option JsObj) (cfgBody : Option KeySpec) :
    Option String :=
  match body, cfgBody with
  | some b, some spec => findBodyKey b spec.toKeys
  | _, _ => none

/-- The params loop: direct lookup per configured key; accepted only when the
value is a truthy string. -/
def findParamKey (params : JsObj) : List String → Option String
  | [] => none
  | key :: rest =>
    match jsGet params key with
    | some (.str s) => if s ≠ "" then some s else findParamKey params rest
    | _ => findParamKey params rest

/-- `extractFromParams`. -/
def extractFromParams (params : Option JsObj) (cfgParams : Option KeySpec) :
    Option String :=
  match params, cfgParams with
  | some p, some spec => findParamKey p spec.toKeys
  | _, _ => none

/-- `RequestLike` (src/types/http.types.ts): the duck-typed request view. -/
structure RequestLike where
  headers : Option Headers := none
  query : Option JsObj := none
  body : Option JsObj := none
  params : Option JsObj := none
deriving Repr

/-- `extractFromRequest`: headers, then query, then body, then params; each
phase's result is taken when truthy, otherwise the next phase runs. -/
def extractFromRequest (cfg : TraceIdExtractorConfig) (request : RequestLike) :
    Option String :=
  let headerTraceId := extractFromHeaders request.headers cfg.header
  if strTruthy headerTraceId then headerTraceId else
  let queryTraceId := extractFromQuery request.query cfg.query
  if strTruthy queryTraceId then queryTraceId else
  let bodyTraceId := extractFromBody request.body cfg.body
  if strTruthy bodyTraceId then bodyTraceId else
  let paramsTraceId := extractFromParams request.params cfg.params
  if strTruthy paramsTraceId then paramsTraceId else none

/-! ## TraceContextManager (src/trace/trace-context.ts)

The manager keeps a process-wide `TraceIdConfig` and an `AsyncLocalStorage`
whose store, for the synchronously executing code, we model explicitly as an
`Option TraceContext` field of the manager state.  `AsyncLocalStorage.run`
sets the store for the dynamic extent of the callback and restores the
previous store afterwards; configuration changes made inside the callback
persist.  The configured `generator : () => string` function is modelled by
the value it returns. -/

abbrev Metadata := JsObj

/-- `TraceContext`: trace id, binding instant and optional metadata bag. -/
structure TraceContext where
  traceId : String
  startTime : Nat
  metadata : Option Metadata := none
deriving Repr

/-- `TraceIdConfig` (src/types): `enabled`, optional generator (modelled by
its returned value), optional `contextKey`, optional middleware-level
extractor config. -/
structure TraceIdConfig where
  enabled : Bool
  generator : Option String := none
  contextKey : Option String := none
  extractor : Option TraceIdExtractorConfig := none
deriving Repr

/-- The manager's state: process-wide config plus the AsyncLocalStorage store
currently visible to the executing code. -/
structure MgrState where
  config : TraceIdConfig
  store : Option TraceContext
deriving Repr

/-- `getCurrentTraceId()`: `undefined` when disabled, otherwise the bound
context's trace id. -/
def getCurrentTraceId (s : MgrState) : Option String :=
  if !s.config.enabled then none
  else s.store.map (·.traceId)

/-- `getCurrentContext()`: returns `asyncLocalStorage.getStore()` directly,
with no `enabled` check. -/
def getCurrentContext (s : MgrState) : Option TraceContext :=
  s.store

/-- `getElapsedTime()`: `Date.now() - context.startTime`, `undefined` when
unbound; no `enabled` check. -/
def getElapsedTime (now : Nat) (s : MgrState) : Option Nat :=
  s.store.map (fun c => now - c.startTime)

/-- `isEnabled()`. -/
def isEnabled (s : MgrState) : Bool := s.config.enabled

/-- `disable()`: sets `config.enabled = false`; the AsyncLocalStorage store
is untouched. -/
def disable (s : MgrState) : MgrState :=
  { s with config := { s.config with enabled := false } }

/-- `enable()`. -/
def enable (s : MgrState) : MgrState :=
  { s with config := { s.config with enabled := true } }

/-- `runWithTraceId(traceId, callback, metadata?)`: plain invocation when
disabled; otherwise the callback runs with the store set to a fresh
`TraceContext` and the previous store is restored afterwards (config changes
made by the callback persist). -/
def runWithTraceId {α : Type} (traceId : String) (now : Nat)
    (metadata : Option Metadata) (callback : MgrState → α × MgrState)
    (s : MgrState) : α × MgrState :=
  if !s.config.enabled then callback s
  else
    let context : TraceContext := { traceId := traceId, startTime := now, metadata := metadata }
    let r := callback { s with store := some context }
    (r.1, { r.2 with store := s.store })

/-- The promise wrapper
`try { const result = await callback(); resolve(result); } catch (error) { reject(error); }`:
a resolution is passed to `resolve`, a raised error to `reject`. -/
def settle {ε α : Type} : Except ε α → Except ε α
  | .ok v => .ok v
  | .error e => .error e

/-- `runWithTraceIdAsync(traceId, asyncCallback, metadata?)`: the async
callback's settlement is modelled as `Except ε α`; the returned promise
settles through `settle` exactly as the callback settled. -/
def runWithTraceIdAsync {ε α : Type} (traceId : String) (now : Nat)
    (metadata : Option Metadata) (callback : MgrState → Except ε α × MgrState)
    (s : MgrState) : Except ε α × MgrState :=
  if !s.config.enabled then callback s
  else
    let context : TraceContext := { traceId := traceId, startTime := now, metadata := metadata }
    let r := callback { s with store := some context }
    (settle r.1, { r.2 with store := s.store })

/-! ## Interleaved asynchronous flows

`AsyncLocalStorage` is continuation-scoped: every continuation created inside
`run(context, cb)` captures the store active at its creation, and the runtime
restores that captured store when the continuation is resumed.  We model two
logical flows whose atomic segments (separated by `await` suspension points)
interleave on one thread under an arbitrary schedule.  Each task carries the
store its next continuation captured; resuming writes it into the shared
current-store register, which `getCurrentTraceId` reads. -/

inductive FlowStep where
  | read
  | work
deriving Repr, DecidableEq

/-- A suspended logical flow: the AsyncLocalStorage store its next
continuation captured, and its remaining steps. -/
structure FlowTask where
  saved : Option TraceContext
  pending : List FlowStep
deriving Repr

/-- Machine state for two interleaved flows: the shared current-store
register, the shared `config.enabled` flag, both tasks, and the log of
`getCurrentTraceId()` observations each flow made. -/
structure TwoFlowState where
  cur : Option TraceContext
  enabled : Bool
  flowA : FlowTask
  flowB : FlowTask
  logA : List (Option String)
  logB : List (Option String)
deriving Repr

/-- `getCurrentTraceId()` as observed by a machine step. -/
def readCurrent (enabled : Bool) (cur : Option TraceContext) : Option String :=
  if !enabled then none else cur.map (·.traceId)

/-- Resume a task: restore its captured store into the current register, run
one atomic segment (recording the observation if it reads), and suspend
again, the next continuation capturing the current store. -/
def runTaskStep (enabled : Bool) (t : FlowTask) (log : List (Option String)) :
    FlowTask × List (Option String) × Option TraceContext :=
  match t.pending with
  | [] => (t, log, t.saved)
  | step :: rest =>
    let cur := t.saved
    let log' := match step with
      | .read => log ++ [readCurrent enabled cur]
      | .work => log
    ({ saved := cur, pending := rest }, log', cur)

/-- One scheduler step: `true` resumes flow A, `false` resumes flow B. -/
def stepMachine (pick : Bool) (st : TwoFlowState) : TwoFlowState :=
  if pick then
    let r := runTaskStep st.enabled st.flowA st.logA
    { st with flowA := r.1, logA := r.2.1, cur := r.2.2 }
  else
    let r := runTaskStep st.enabled st.flowB st.logB
    { st with flowB := r.1, logB := r.2.1, cur := r.2.2 }

/-- Run an arbitrary interleaving schedule. -/
def runSchedule (sched : List Bool) (st : TwoFlowState) : TwoFlowState :=
  sched.foldl (fun s pick => stepMachine pick s) st

/-- `runWithTraceIdAsync` spawning a flow: when enabled, the callback's
continuations capture a fresh context; when disabled, they capture whatever
store the caller had. -/
def spawnAsyncFlow (enabled : Bool) (outer : Option TraceContext)
    (traceId : String) (now : Nat) (metadata : Option Metadata)
    (steps : List FlowStep) : FlowTask :=
  if !enabled then { saved := outer, pending := steps }
  else
    { saved := some { traceId := traceId, startTime := now, metadata := metadata },
      pending := steps }

/-- Initial machine state for `runWithTraceId("T1", f)` interleaved with
`runWithTraceId("T2", g)` started from unbound top level with tracing
enabled. -/
def twoFlowInit (idA idB : String) (tA tB : Nat) (mdA mdB : Option Metadata)
    (stepsA stepsB : List FlowStep) : TwoFlowState :=
  { cur := none, enabled := true,
    flowA := spawnAsyncFlow true none idA tA mdA stepsA,
    flowB := spawnAsyncFlow true none idB tB mdB stepsB,
    logA := [], logB := [] }

/-! ## LogitronTraceMiddleware (src/nestjs/middlewares/logitron-trace.middleware.ts) -/

/-- `trace_ids`: the middleware's built-in default field list. -/
def trace_ids : List String :=
  ["x-trace-id", "x-request-id", "x-correlation-id", "trace-id", "request-id"]

/-- The raw request the middleware receives, before normalization.  Building
this view can throw (e.g. a malformed headers object), which the `Except`
models; `params` is `none` when `req.params` is missing or not an object. -/
structure RawRequest where
  headers : Option Headers := none
  query : Option JsObj := none
  body : Option JsObj := none
  params : Option JsObj := none
deriving Repr

/-- Route-parameter normalization (middleware lines 41–54): a `path` key
holding an array is recognized only as `['param', x, ...]`, which becomes
`{ id: x }` (any other array shape yields empty params); otherwise the flat
params object is copied verbatim. -/
def normalizeRouteParams (params : Option JsObj) : JsObj :=
  match params with
  | none => []
  | some ps =>
    match jsGet ps "path" with
    | some (.arr pathSegments) =>
      match pathSegments with
      | .str s0 :: second :: _ =>
        if s0 = "param" then [("id", second)] else []
      | _ => []
    | _ => ps

/-- Outcome of one middleware invocation: each `next()` call with the trace
id bound around it, and the error reported to the fallback channel
(`console.error`) if one was caught. -/
structure MwResult (ε : Type) where
  nextRuns : List (Option String)
  fallbackLogged : Option ε

/-- `LogitronTraceMiddleware.use`: disabled config short-circuits to plain
`next()`; an error raised while building the request view (or anywhere in
the `try` before `next`) is caught, logged, and followed by a plain
`next()`; otherwise the extractor runs over the normalized view, a
configured generator supplies a fallback id, and `next` runs inside
`runWithTraceId` exactly when a truthy id is available. -/
def middlewareUse {ε : Type} (traceConfig : Option TraceIdConfig)
    (request : Except ε RawRequest) : MwResult ε :=
  match traceConfig with
  | none => { nextRuns := [none], fallbackLogged := none }
  | some tc =>
    if !tc.enabled then { nextRuns := [none], fallbackLogged := none }
    else
      match request with
      | .error e => { nextRuns := [none], fallbackLogged := some e }
      | .ok req =>
        let extractorConfig := tc.extractor.getD
          { header := some (.many trace_ids), query := some (.many trace_ids),
            body := some (.many trace_ids), params := some (.many trace_ids) }
        let cfg := mkExtractor extractorConfig
        let routeParams := normalizeRouteParams req.params
        let requestData : RequestLike :=
          { headers := req.headers, query := req.query, body := req.body,
            params := some routeParams }
        let extracted := extractFromRequest cfg requestData
        let traceId :=
          if !(strTruthy extracted) then
            match tc.generator with
            | some g => some g
            | none => extracted
          else extracted
        if strTruthy traceId then { nextRuns := [traceId], fallbackLogged := none }
        else { nextRuns := [none], fallbackLogged := none }

/-! ## A heap model for the copy-returning reads

`getConfig()` returns `{ ...this.config }` and `getMetadata()` (no key)
returns `{ ...context.metadata }`: fresh shallow copies.  To state that the
caller mutating the returned object leaves the store unaffected we model a
small object heap: references are indices, allocation appends. -/

abbrev Ref := Nat

/-- The object heap. -/
structure Heap where
  objs : List JsObj
deriving Repr

/-- Allocate a fresh object. -/
def Heap.alloc (h : Heap) (o : JsObj) : Ref × Heap :=
  (h.objs.length, ⟨h.objs ++ [o]⟩)

/-- Dereference (a dangling reference reads as the empty object). -/
def Heap.getObj (h : Heap) (r : Ref) : JsObj :=
  (h.objs[r]?).getD []

/-- JavaScript property assignment on an object: overwrite in place or
append. -/
def objSet (o : JsObj) (k : String) (v : JsVal) : JsObj :=
  if o.any (fun kv => kv.1 == k) then
    o.map (fun kv => if kv.1 == k then (k, v) else kv)
  else o ++ [(k, v)]

/-- In-place field update of a heap object. -/
def Heap.setField (h : Heap) (r : Ref) (k : String) (v : JsVal) : Heap :=
  ⟨h.objs.set r (objSet (h.getObj r) k v)⟩

/-- The manager's state, heap view: the config object lives at `configRef`;
when the bound context carries a metadata bag it lives at `ctxMetaRef`. -/
structure HMgrState where
  heap : Heap
  configRef : Ref
  ctxMetaRef : Option Ref
deriving Repr

/-- `getConfig()`: `return { ...this.config }` — allocates a fresh shallow
copy and returns its reference. -/
def getConfigH (s : HMgrState) : Ref × HMgrState :=
  let r := s.heap.alloc (s.heap.getObj s.configRef)
  (r.1, { s with heap := r.2 })

/-- `getMetadata()` with no key: `undefined` when the current context has no
metadata, otherwise a fresh shallow copy `{ ...context.metadata }`. -/
def getMetadataAllH (s : HMgrState) : Option Ref × HMgrState :=
  match s.ctxMetaRef with
  | none => (none, s)
  | some mr =>
    let r := s.heap.alloc (s.heap.getObj mr)
    (some r.1, { s with heap := r.2 })

/-- The caller mutating a returned object: property assignment through its
reference. -/
def mutateField (s : HMgrState) (r : Ref) (k : String) (v : JsVal) : HMgrState :=
  { s with heap := s.heap.setField r k v }

/-- What every config-dependent read sees: the config object's fields. -/
def readConfigH (s : HMgrState) : JsObj :=
  s.heap.getObj s.configRef

/-- What every metadata read (`getMetadata(key)` and the copy made by
`getMetadata()`) sees: the context's metadata bag. -/
def readMetadataH (s : HMgrState) : Option JsObj :=
  s.ctxMetaRef.map s.heap.getObj

/-- A concrete two-object heap state: the config object at reference 0, the
bound context's metadata bag at reference 1. -/
def sampleHeapState : HMgrState :=
  { heap := ⟨[[("enabled", .boolean true)], [("user", .str "u")]]⟩,
    configRef := 0, ctxMetaRef := some 1 }

/-! ## Extractor lemmas -/

theorem strTruthy_eq_true {o : Option String} (h : strTruthy o = true) :
    ∃ s, o = some s ∧ s ≠ "" := by
  cases o with
  | none => simp [strTruthy] at h
  | some s => exact ⟨s, rfl, by simpa [strTruthy] using h⟩

theorem findHeaderKey_first (hs : Headers) (ks₁ ks₂ : List String) (key v : String)
    (hbefore : ∀ k ∈ ks₁, getHeaderValue hs k = none ∨ getHeaderValue hs k = some "")
    (hkey : getHeaderValue hs key = some v) (hv : v ≠ "") :
    findHeaderKey hs (ks₁ ++ key :: ks₂) = some v := by
  induction ks₁ with
  | nil => simp [findHeaderKey, hkey, strTruthy, hv]
  | cons k ks ih =>
    have hrest := ih (fun k' hk' => hbefore k' (by simp [hk']))
    rcases hbefore k (by simp) with h1 | h1 <;>
      simp [findHeaderKey, h1, strTruthy, hrest]

theorem findHeaderKey_none (hs : Headers) (keys : List String)
    (h : ∀ k ∈ keys, getHeaderValue hs k = none ∨ getHeaderValue hs k = some "") :
    findHeaderKey hs keys = none := by
  induction keys with
  | nil => rfl
  | cons k ks ih =>
    have hrest := ih (fun k' hk' => h k' (by simp [hk']))
    rcases h k (by simp) with h1 | h1 <;>
      simp [findHeaderKey, h1, strTruthy, hrest]

theorem findHeaderKey_ne_empty (hs : Headers) (keys : List String) :
    findHeaderKey hs keys ≠ some "" := by
  induction keys with
  | nil => simp [findHeaderKey]
  | cons k ks ih =>
    cases hv : strTruthy (getHeaderValue hs k) with
    | false => simpa [findHeaderKey, hv] using ih
    | true =>
      obtain ⟨s, hso, hne⟩ := strTruthy_eq_true hv
      simp [findHeaderKey, hv, hso, hne, strTruthy]

theorem findQueryKey_none (q : JsObj) (keys : List String)
    (h : ∀ k ∈ keys, ∀ s : String, jsGet q k ≠ some (.str s)) :
    findQueryKey q keys = none := by
  induction keys with
  | nil => rfl
  | cons k ks ih =>
    have hrest := ih (fun k' hk' s => h k' (by simp [hk']) s)
    cases hj : jsGet q k with
    | none => simpa [findQueryKey, hj] using hrest
    | some v =>
      cases v with
      | str s => exact absurd hj (h k (by simp) s)
      | num n => simpa [findQueryKey, hj] using hrest
      | boolean b => simpa [findQueryKey, hj] using hrest
      | null => simpa [findQueryKey, hj] using hrest
      | obj fields => simpa [findQueryKey, hj] using hrest
      | arr elems => simpa [findQueryKey, hj] using hrest

theorem findBodyKey_none (b : JsObj) (keys : List String)
    (h : ∀ k ∈ keys, ∀ s : String, getNestedValue b k ≠ some (.str s)) :
    findBodyKey b keys = none := by
  induction keys with
  | nil => rfl
  | cons k ks ih =>
    have hrest := ih (fun k' hk' s => h k' (by simp [hk']) s)
    cases hj : getNestedValue b k with
    | none => simpa [findBodyKey, hj] using hrest
    | some v =>
      cases v with
      | str s => exact absurd hj (h k (by simp) s)
      | num n => simpa [findBodyKey, hj] using hrest
      | boolean bb => simpa [findBodyKey, hj] using hrest
      | null => simpa [findBodyKey, hj] using hrest
      | obj fields => simpa [findBodyKey, hj] using hrest
      | arr elems => simpa [findBodyKey, hj] using hrest

theorem findParamKey_none (p : JsObj) (keys : List String)
    (h : ∀ k ∈ keys, ∀ s : String, jsGet p k ≠ some (.str s)) :
    findParamKey p keys = none := by
  induction keys with
  | nil => rfl
  | cons k ks ih =>
    have hrest := ih (fun k' hk' s => h k' (by simp [hk']) s)
    cases hj : jsGet p k with
    | none => simpa [findParamKey, hj] using hrest
    | some v =>
      cases v with
      | str s => exact absurd hj (h k (by simp) s)
      | num n => simpa [findParamKey, hj] using hrest
      | boolean b => simpa [findParamKey, hj] using hrest
      | null => simpa [findParamKey, hj] using hrest
      | obj fields => simpa [findParamKey, hj] using hrest
      | arr elems => simpa [findParamKey, hj] using hrest

theorem findQueryKey_ne_empty (q : JsObj) (keys : List String) :
    findQueryKey q keys ≠ some "" := by
  induction keys with
  | nil => simp [findQueryKey]
  | cons k ks ih =>
    cases hj : jsGet q k with
    | none => simpa [findQueryKey, hj] using ih
    | some v =>
      cases v with
      | str s =>
        by_cases hs : s = ""
        · subst hs; simpa [findQueryKey, hj] using ih
        · simp [findQueryKey, hj, hs]
      | num n => simpa [findQueryKey, hj] using ih
      | boolean b => simpa [findQueryKey, hj] using ih
      | null => simpa [findQueryKey, hj] using ih
      | obj fields => simpa [findQueryKey, hj] using ih
      | arr elems => simpa [findQueryKey, hj] using ih

theorem findBodyKey_ne_empty (b : JsObj) (keys : List String) :
    findBodyKey b keys ≠ some "" := by
  induction keys with
  | nil => simp [findBodyKey]
  | cons k ks ih =>
    cases hj : getNestedValue b k with
    | none => simpa [findBodyKey, hj] using ih
    | some v =>
      cases v with
      | str s =>
        by_cases hs : s = ""
        · subst hs; simpa [findBodyKey, hj] using ih
        · simp [findBodyKey, hj, hs]
      | num n => simpa [findBodyKey, hj] using ih
      | boolean bb => simpa [findBodyKey, hj] using ih
      | null => simpa [findBodyKey, hj] using ih
      | obj fields => simpa [findBodyKey, hj] using ih
      | arr elems => simpa [findBodyKey, hj] using ih

theorem findParamKey_ne_empty (p : JsObj) (keys : List String) :
    findParamKey p keys ≠ some "" := by
  induction keys with
  | nil => simp [findParamKey]
  | cons k ks ih =>
    cases hj : jsGet p k with
    | none => simpa [findParamKey, hj] using ih
    | some v =>
      cases v with
      | str s =>
        by_cases hs : s = ""
        · subst hs; simpa [findParamKey, hj] using ih
        · simp [findParamKey, hj, hs]
      | num n => simpa [findParamKey, hj] using ih
      | boolean b => simpa [findParamKey, hj] using ih
      | null => simpa [findParamKey, hj] using ih
      | obj fields => simpa [findParamKey, hj] using ih
      | arr elems => simpa [findParamKey, hj] using ih

theorem extractFromHeaders_ne_empty (hs : Option Headers) (spec : Option KeySpec) :
    extractFromHeaders hs spec ≠ some "" := by
  cases hs with
  | none => cases spec <;> simp [extractFromHeaders]
  | some h => cases spec with
    | none => simp [extractFromHeaders]
    | some sp => simpa [extractFromHeaders] using findHeaderKey_ne_empty h sp.toKeys

theorem extractFromQuery_ne_empty (q : Option JsObj) (spec : Option KeySpec) :
    extractFromQuery q spec ≠ some "" := by
  cases q with
  | none => cases spec <;> simp [extractFromQuery]
  | some qq => cases spec with
    | none => simp [extractFromQuery]
    | some sp => simpa [extractFromQuery] using findQueryKey_ne_empty qq sp.toKeys

theorem extractFromBody_ne_empty (b : Option JsObj) (spec : Option KeySpec) :
    extractFromBody b spec ≠ some "" := by
  cases b with
  | none => cases spec <;> simp [extractFromBody]
  | some bb => cases spec with
    | none => simp [extractFromBody]
    | some sp => simpa [extractFromBody] using findBodyKey_ne_empty bb sp.toKeys

theorem extractFromParams_ne_empty (p : Option JsObj) (spec : Option KeySpec) :
    extractFromParams p spec ≠ some "" := by
  cases p with
  | none => cases spec <;> simp [extractFromParams]
  | some pp => cases spec with
    | none => simp [extractFromParams]
    | some sp => simpa [extractFromParams] using findParamKey_ne_empty pp sp.toKeys

theorem extractFromRequest_ne_empty (cfg : TraceIdExtractorConfig) (req : RequestLike) :
    extractFromRequest cfg req ≠ some "" := by
  simp only [extractFromRequest]
  split
  next h =>
    obtain ⟨s, hso, hne⟩ := strTruthy_eq_true h
    simp [hso, hne]
  next =>
    split
    next h =>
      obtain ⟨s, hso, hne⟩ := strTruthy_eq_true h
      simp [hso, hne]
    next =>
      split
      next h =>
        obtain ⟨s, hso, hne⟩ := strTruthy_eq_true h
        simp [hso, hne]
      next =>
        split
        next h =>
          obtain ⟨s, hso, hne⟩ := strTruthy_eq_true h
          simp [hso, hne]
        next => simp

/-- C2: when candidate values are present in headers, query, body and params
simultaneously, the header value wins: the first configured header name (in
declared order) whose case-insensitive lookup yields a truthy value
determines the result of `extractFromRequest`, and the query, body and
params sources (universally quantified here) are never consulted.  The
first-element rule for list-valued headers is part of `getHeaderValue`. -/
theorem header_precedence_first_match
    (cfg : TraceIdExtractorConfig) (hs : Headers) (q b p : Option JsObj)
    (spec : KeySpec) (ks₁ ks₂ : List String) (key v : String)
    (hcfg : cfg.header = some spec)
    (hsplit : spec.toKeys = ks₁ ++ key :: ks₂)
    (hbefore : ∀ k ∈ ks₁, getHeaderValue hs k = none ∨ getHeaderValue hs k = some "")
    (hkey : getHeaderValue hs key = some v) (hv : v ≠ "") :
    extractFromRequest cfg
      { headers := some hs, query := q, body := b, params := p } = some v := by
  have hfind : findHeaderKey hs spec.toKeys = some v := by
    rw [hsplit]
    exact findHeaderKey_first hs ks₁ ks₂ key v hbefore hkey hv
  have hH : extractFromHeaders (some hs) cfg.header = some v := by
    rw [hcfg]
    simpa [extractFromHeaders] using hfind
  simp [extractFromRequest, hH, strTruthy, hv]

/-- Witness for C2: all four sources carry distinct candidates; the
list-valued `X-Trace-Id` header's first element wins despite differing case
and despite the query/body/params candidates. -/
theorem header_precedence_first_match_witness :
    extractFromRequest
      (mkExtractor { query := some (.one "qid"), body := some (.one "bid"),
                     params := some (.one "pid") })
      { headers := some [("X-Trace-Id", .multi ["abc-123", "zzz"])],
        query := some [("qid", .str "from-query")],
        body := some [("bid", .str "from-body")],
        params := some [("pid", .str "from-params")] } = some "abc-123" :=
  header_precedence_first_match _ _ _ _ _ (.many defaultHeaderKeys) []
    ["x-request-id", "x-correlation-id"] "x-trace-id" "abc-123"
    rfl rfl (by simp) (by decide) (by decide)

/-- C7: an empty string is never returned as a trace id, and when every
configured header name resolves to an absent or empty value while the query
source yields a value, that lower-precedence query value is returned: empty
values are treated as not found and the extractor falls through. -/
theorem empty_string_not_found :
    (∀ (cfg : TraceIdExtractorConfig) (req : RequestLike),
      extractFromRequest cfg req ≠ some "") ∧
    (∀ (cfg : TraceIdExtractorConfig) (hs : Headers) (q b p : Option JsObj)
      (spec : KeySpec) (v : String),
      cfg.header = some spec →
      (∀ k ∈ spec.toKeys, getHeaderValue hs k = none ∨ getHeaderValue hs k = some "") →
      extractFromQuery q cfg.query = some v →
      extractFromRequest cfg
        { headers := some hs, query := q, body := b, params := p } = some v) := by
  constructor
  · exact extractFromRequest_ne_empty
  · intro cfg hs q b p spec v hcfg hempty hquery
    have hH : extractFromHeaders (some hs) cfg.header = none := by
      rw [hcfg]
      simpa [extractFromHeaders] using findHeaderKey_none hs spec.toKeys hempty
    have hvne : v ≠ "" := by
      intro hcontra
      subst hcontra
      exact extractFromQuery_ne_empty q cfg.query hquery
    simp [extractFromRequest, hH, hquery, strTruthy, hvne]

/-- Witness for C7: the sole configured header is present but empty, the
query field holds `"from-query"`, and extraction returns the query value;
the same request never produces `some ""`. -/
theorem empty_string_not_found_witness :
    extractFromRequest
      (mkExtractor { header := some (.one "x-trace-id"), query := some (.one "traceId") })
      { headers := some [("x-trace-id", .single "")],
        query := some [("traceId", .str "from-query")] } = some "from-query" ∧
    extractFromRequest
      (mkExtractor { header := some (.one "x-trace-id"), query := some (.one "traceId") })
      { headers := some [("x-trace-id", .single "")],
        query := some [("traceId", .str "from-query")] } ≠ some "" :=
  ⟨empty_string_not_found.2 _ _ _ _ _ (.one "x-trace-id") "from-query"
      rfl (by decide) (by decide),
   empty_string_not_found.1 _ _⟩

/-- C8: when no configured header matches and every configured query, body
and params field holds a number (a non-string value), `extractFromRequest`
returns none — non-string values are skipped without coercion. -/
theorem nonstring_values_skipped
    (cfg : TraceIdExtractorConfig) (hs : Option Headers) (q b p : JsObj)
    (hh : extractFromHeaders hs cfg.header = none)
    (hq : ∀ spec, cfg.query = some spec →
      ∀ k ∈ spec.toKeys, ∃ n : Int, jsGet q k = some (.num n))
    (hb : ∀ spec, cfg.body = some spec →
      ∀ k ∈ spec.toKeys, ∃ n : Int, getNestedValue b k = some (.num n))
    (hp : ∀ spec, cfg.params = some spec →
      ∀ k ∈ spec.toKeys, ∃ n : Int, jsGet p k = some (.num n)) :
    extractFromRequest cfg
      { headers := hs, query := some q, body := some b, params := some p } = none := by
  have hQ : extractFromQuery (some q) cfg.query = none := by
    cases hc : cfg.query with
    | none => simp [extractFromQuery]
    | some spec =>
      have hnum := hq spec hc
      have : findQueryKey q spec.toKeys = none := by
        refine findQueryKey_none q spec.toKeys (fun k hk s hcontra => ?hQgoal)
        obtain ⟨n, hn⟩ := hnum k hk
        rw [hn] at hcontra
        simp at hcontra
      simpa [extractFromQuery] using this
  have hB : extractFromBody (some b) cfg.body = none := by
    cases hc : cfg.body with
    | none => simp [extractFromBody]
    | some spec =>
      have hnum := hb spec hc
      have : findBodyKey b spec.toKeys = none := by
        refine findBodyKey_none b spec.toKeys (fun k hk s hcontra => ?hBgoal)
        obtain ⟨n, hn⟩ := hnum k hk
        rw [hn] at hcontra
        simp at hcontra
      simpa [extractFromBody] using this
  have hP : extractFromParams (some p) cfg.params = none := by
    cases hc : cfg.params with
    | none => simp [extractFromParams]
    | some spec =>
      have hnum := hp spec hc
      have : findParamKey p spec.toKeys = none := by
        refine findParamKey_none p spec.toKeys (fun k hk s hcontra => ?hPgoal)
        obtain ⟨n, hn⟩ := hnum k hk
        rw [hn] at hcontra
        simp at hcontra
      simpa [extractFromParams] using this
  simp [extractFromRequest, hh, hQ, hB, hP, strTruthy]

/-- Witness for C8: numbers at every configured query/body/params field and
no matching header give extraction result none. -/
theorem nonstring_values_skipped_witness :
    extractFromRequest
      (mkExtractor { query := some (.many ["traceId", "trace_id"]),
                     body := some (.one "traceId"), params := some (.one "id") })
      { headers := some [("content-type", .single "application/json")],
        query := some [("traceId", .num 42), ("trace_id", .num 7)],
        body := some [("traceId", .num 99)],
        params := some [("id", .num 12345)] } = none :=
  nonstring_values_skipped _ _ _ _ _
    (by decide)
    (by
      intro spec hspec k hk
      injection hspec with hspec
      subst hspec
      simp [KeySpec.toKeys] at hk
      rcases hk with rfl | rfl
      · exact ⟨42, rfl⟩
      · exact ⟨7, rfl⟩)
    (by
      intro spec hspec k hk
      injection hspec with hspec
      subst hspec
      simp [KeySpec.toKeys] at hk
      subst hk
      exact ⟨99, rfl⟩)
    (by
      intro spec hspec k hk
      injection hspec with hspec
      subst hspec
      simp [KeySpec.toKeys] at hk
      subst hk
      exact ⟨12345, rfl⟩)

/-! ## Trace Context Store claims -/

/-- C6: an inner `runWithTraceId` scope shadows the outer one for exactly
the inner callback's duration: the read inside the inner callback returns
the inner id, and a read taken inside the outer callback after the inner
call completed returns the outer id again. -/
theorem nested_scope_shadowing (O I : String) (nOuter nInner : Nat) (s : MgrState)
    (h : s.config.enabled = true) :
    (runWithTraceId O nOuter none
      (fun s1 =>
        let inner := runWithTraceId I nInner none
          (fun s2 => (getCurrentTraceId s2, s2)) s1
        ((inner.1, getCurrentTraceId inner.2), inner.2)) s).1 = (some I, some O) := by
  simp [runWithTraceId, getCurrentTraceId, h]

/-- Witness for C6 at a concrete initial state. -/
theorem nested_scope_shadowing_witness :
    (runWithTraceId "OUTER" 0 none
      (fun s1 =>
        let inner := runWithTraceId "INNER" 1 none
          (fun s2 => (getCurrentTraceId s2, s2)) s1
        ((inner.1, getCurrentTraceId inner.2), inner.2))
      { config := { enabled := true }, store := none }).1 =
      (some "INNER", some "OUTER") :=
  nested_scope_shadowing "OUTER" "INNER" 0 1
    { config := { enabled := true }, store := none } rfl

/-- C4: the promise returned by `runWithTraceIdAsync` settles exactly as the
callback settles — a rejection carries the very same error, a resolution the
very same value; nothing is wrapped or swallowed.  (When disabled the
callback's own result is returned directly, at the unbound state.) -/
theorem async_outcome_preserved (ε α : Type) (t : String) (now : Nat)
    (md : Option Metadata) (cb : MgrState → Except ε α × MgrState) (s : MgrState) :
    (runWithTraceIdAsync t now md cb s).1 =
      (cb (if s.config.enabled then
            { s with store := some { traceId := t, startTime := now, metadata := md } }
          else s)).1 := by
  have hsettle : ∀ r : Except ε α, settle r = r := by
    intro r; cases r <;> rfl
  cases h : s.config.enabled with
  | false => simp [runWithTraceIdAsync, h]
  | true => simp [runWithTraceIdAsync, h, hsettle]

/-- C3 counterexample: `disable()` is called while a previously bound scope
is still active; `getCurrentTraceId` already answers none, yet
`getCurrentContext` and `getElapsedTime` — store reads with no enabled
check — still report the bound context, so it is not the case that every
read operation reports no bound context when `enabled = false`. -/
theorem disabled_still_reports_context :
    (runWithTraceId "T" 0 none
      (fun s1 =>
        let s2 := disable s1
        ((isEnabled s2, getCurrentTraceId s2, getCurrentContext s2,
          getElapsedTime 5 s2), s2))
      { config := { enabled := true }, store := none }).1 =
      (false, none, some { traceId := "T", startTime := 0, metadata := none },
        some 5) ∧
    (some { traceId := "T", startTime := 0, metadata := none } :
      Option TraceContext) ≠ none :=
  ⟨rfl, by simp⟩

/-- C3 (amended): when `enabled = false`, `getCurrentTraceId` returns none
and `runWithTraceId` / `runWithTraceIdAsync` degenerate to plain invocation
of the callback with no binding.  (The direct store reads
`getCurrentContext` / `getElapsedTime` / metadata access perform no enabled
check and can still report a context bound before `disable()` was called.) -/
theorem disabled_noop (ε α β : Type) (s : MgrState) (h : s.config.enabled = false) :
    getCurrentTraceId s = none ∧
    (∀ (t : String) (n : Nat) (md : Option Metadata) (cb : MgrState → β × MgrState),
      runWithTraceId t n md cb s = cb s) ∧
    (∀ (t : String) (n : Nat) (md : Option Metadata)
      (cb : MgrState → Except ε α × MgrState),
      runWithTraceIdAsync t n md cb s = cb s) := by
  refine ⟨?_, ?_, ?_⟩ <;>
    simp [getCurrentTraceId, runWithTraceId, runWithTraceIdAsync, h]

/-- Witness for the amended C3 at a concrete disabled state. -/
theorem disabled_noop_witness :
    getCurrentTraceId { config := { enabled := false }, store := none } = none ∧
    (∀ (t : String) (n : Nat) (md : Option Metadata)
      (cb : MgrState → Nat × MgrState),
      runWithTraceId t n md cb { config := { enabled := false }, store := none } =
        cb { config := { enabled := false }, store := none }) ∧
    (∀ (t : String) (n : Nat) (md : Option Metadata)
      (cb : MgrState → Except String Nat × MgrState),
      runWithTraceIdAsync t n md cb
          { config := { enabled := false }, store := none } =
        cb { config := { enabled := false }, store := none }) :=
  disabled_noop String Nat Nat { config := { enabled := false }, store := none } rfl

/-! ## Interleaved-flow isolation -/

theorem runTaskStep_log (enabled : Bool) (t : FlowTask) (ctx : TraceContext)
    (log : List (Option String)) (hs : t.saved = some ctx) (hE : enabled = true)
    (hL : ∀ x ∈ log, x = some ctx.traceId) :
    (runTaskStep enabled t log).1.saved = some ctx ∧
    (∀ x ∈ (runTaskStep enabled t log).2.1, x = some ctx.traceId) := by
  cases hp : t.pending with
  | nil =>
    exact ⟨by simp [runTaskStep, hp, hs], by simpa [runTaskStep, hp] using hL⟩
  | cons stp rest =>
    cases stp with
    | read =>
      refine ⟨by simp [runTaskStep, hp, hs], ?_⟩
      simp only [runTaskStep, hp]
      rw [List.forall_mem_append]
      exact ⟨hL, by simp [hs, readCurrent, hE]⟩
    | work =>
      exact ⟨by simp [runTaskStep, hp, hs], by simpa [runTaskStep, hp] using hL⟩

theorem stepMachine_inv (pick : Bool) (st : TwoFlowState) (ctxA ctxB : TraceContext)
    (hE : st.enabled = true) (hA : st.flowA.saved = some ctxA)
    (hB : st.flowB.saved = some ctxB)
    (hLA : ∀ x ∈ st.logA, x = some ctxA.traceId)
    (hLB : ∀ x ∈ st.logB, x = some ctxB.traceId) :
    (stepMachine pick st).enabled = true ∧
    (stepMachine pick st).flowA.saved = some ctxA ∧
    (stepMachine pick st).flowB.saved = some ctxB ∧
    (∀ x ∈ (stepMachine pick st).logA, x = some ctxA.traceId) ∧
    (∀ x ∈ (stepMachine pick st).logB, x = some ctxB.traceId) := by
  cases pick with
  | true =>
    have h := runTaskStep_log st.enabled st.flowA ctxA st.logA hA hE hLA
    exact ⟨by simp [stepMachine, hE], by simpa [stepMachine] using h.1,
      by simpa [stepMachine] using hB, by simpa [stepMachine] using h.2,
      by simpa [stepMachine] using hLB⟩
  | false =>
    have h := runTaskStep_log st.enabled st.flowB ctxB st.logB hB hE hLB
    exact ⟨by simp [stepMachine, hE], by simpa [stepMachine] using hA,
      by simpa [stepMachine] using h.1, by simpa [stepMachine] using hLA,
      by simpa [stepMachine] using h.2⟩

theorem runSchedule_inv (sched : List Bool) (st : TwoFlowState)
    (ctxA ctxB : TraceContext)
    (hE : st.enabled = true) (hA : st.flowA.saved = some ctxA)
    (hB : st.flowB.saved = some ctxB)
    (hLA : ∀ x ∈ st.logA, x = some ctxA.traceId)
    (hLB : ∀ x ∈ st.logB, x = some ctxB.traceId) :
    (∀ x ∈ (runSchedule sched st).logA, x = some ctxA.traceId) ∧
    (∀ x ∈ (runSchedule sched st).logB, x = some ctxB.traceId) := by
  induction sched generalizing st with
  | nil => exact ⟨hLA, hLB⟩
  | cons pick rest ih =>
    have h := stepMachine_inv pick st ctxA ctxB hE hA hB hLA hLB
    exact ih (stepMachine pick st) h.1 h.2.1 h.2.2.1 h.2.2.2.1 h.2.2.2.2

/-- C1: two flows started with `runWithTraceId("T1", f)` and
`runWithTraceId("T2", g)` and interleaved under an arbitrary schedule each
observe only their own trace id through `getCurrentTraceId`, at every read,
including reads of continuations resumed after suspension — zero cross-flow
leakage. -/
theorem trace_isolation (idA idB : String) (tA tB : Nat) (mdA mdB : Option Metadata)
    (stepsA stepsB : List FlowStep) (sched : List Bool) :
    (∀ x ∈ (runSchedule sched
        (twoFlowInit idA idB tA tB mdA mdB stepsA stepsB)).logA, x = some idA) ∧
    (∀ x ∈ (runSchedule sched
        (twoFlowInit idA idB tA tB mdA mdB stepsA stepsB)).logB, x = some idB) ∧
    (idA ≠ idB →
      (∀ x ∈ (runSchedule sched
          (twoFlowInit idA idB tA tB mdA mdB stepsA stepsB)).logA,
        x ≠ some idB) ∧
      (∀ x ∈ (runSchedule sched
          (twoFlowInit idA idB tA tB mdA mdB stepsA stepsB)).logB,
        x ≠ some idA)) := by
  have h := runSchedule_inv sched (twoFlowInit idA idB tA tB mdA mdB stepsA stepsB)
    { traceId := idA, startTime := tA, metadata := mdA }
    { traceId := idB, startTime := tB, metadata := mdB }
    rfl (by simp [twoFlowInit, spawnAsyncFlow]) (by simp [twoFlowInit, spawnAsyncFlow])
    (by simp [twoFlowInit]) (by simp [twoFlowInit])
  refine ⟨h.1, h.2, fun hne => ⟨?_, ?_⟩⟩
  · intro x hx hcontra
    rw [h.1 x hx] at hcontra
    exact hne (Option.some.inj hcontra)
  · intro x hx hcontra
    rw [h.2 x hx] at hcontra
    exact hne (Option.some.inj hcontra).symm

/-- Witness for C1 on a concrete interleaving of two flows. -/
theorem trace_isolation_witness :
    ("T1" : String) ≠ "T2" ∧
    (∀ x ∈ (runSchedule [true, false, true, false]
        (twoFlowInit "T1" "T2" 0 0 none none
          [.read, .read] [.read, .work])).logA, x ≠ some "T2") :=
  ⟨by decide,
   ((trace_isolation "T1" "T2" 0 0 none none [.read, .read] [.read, .work]
      [true, false, true, false]).2.2 (by decide)).1⟩

/-! ## Middleware claims -/

/-- C5: with tracing enabled, an error raised during trace setup (the
request view / extraction / scope entry, modelled by the `Except`) is
caught, reported to the fallback channel, and `next` is still invoked
exactly once with no trace id bound — the same `next` shape as a normal
untraced request. -/
theorem setup_error_never_blocks (ε : Type) (tc : TraceIdConfig) (e : ε)
    (hen : tc.enabled = true) :
    middlewareUse (some tc) (.error e) =
      { nextRuns := [none], fallbackLogged := some e } := by
  simp [middlewareUse, hen]

/-- Witness for C5 with a concrete error. -/
theorem setup_error_never_blocks_witness :
    middlewareUse (some { enabled := true }) (.error "malformed headers") =
      { nextRuns := [none], fallbackLogged := some "malformed headers" } :=
  setup_error_never_blocks String { enabled := true } "malformed headers" rfl

/-- C9 counterexample: the same logical route parameter (`id = "u1"` for a
route `/user/:id`) reaches the extractor under the flat convention but is
lost under the path-segment-array convention — the normalization only
recognizes path arrays of the shape `['param', x]`, so the extractor does
NOT see equivalent params for equivalent routes regardless of convention. -/
theorem route_param_normalization_not_uniform :
    normalizeRouteParams (some [("id", .str "u1")]) = [("id", .str "u1")] ∧
    normalizeRouteParams (some [("path", .arr [.str "user", .str "u1"])]) = [] ∧
    extractFromRequest (mkExtractor { params := some (.one "id") })
      { params := some (normalizeRouteParams (some [("id", .str "u1")])) } =
      some "u1" ∧
    extractFromRequest (mkExtractor { params := some (.one "id") })
      { params := some (normalizeRouteParams
          (some [("path", .arr [.str "user", .str "u1"])])) } = none :=
  ⟨rfl, rfl, rfl, rfl⟩

/-- C9 (amended): the middleware copies a flat params mapping verbatim into
the extractor's view; the path-segment-array convention is recovered only
for arrays of the shape `['param', x, ...]`, which normalize to
`{ id: x }` — every other path-array shape normalizes to empty params. -/
theorem route_param_normalization (ps : JsObj) :
    (normalizeRouteParams none = []) ∧
    ((∀ segs, jsGet ps "path" ≠ some (.arr segs)) →
      normalizeRouteParams (some ps) = ps) ∧
    (∀ v rest, jsGet ps "path" = some (.arr (.str "param" :: v :: rest)) →
      normalizeRouteParams (some ps) = [("id", v)]) ∧
    (∀ segs, jsGet ps "path" = some (.arr segs) →
      (∀ v rest, segs ≠ JsVal.str "param" :: v :: rest) →
      normalizeRouteParams (some ps) = []) := by
  refine ⟨rfl, ?_, ?_, ?_⟩
  · intro hno
    simp only [normalizeRouteParams]
  · intro v rest hj
    simp [normalizeRouteParams, hj]
  · intro segs hj hshape
    simp only [normalizeRouteParams, hj]
    cases segs with
    | nil => rfl
    | cons s0 stail =>
      cases s0 with
      | str s =>
        cases stail with
        | nil => rfl
        | cons s1 srest =>
          have hs : s ≠ "param" := by
            intro hcontra
            subst hcontra
            exact hshape s1 srest rfl
          simp [hs]
      | num n => rfl
      | boolean b => rfl
      | null => rfl
      | obj fields => rfl
      | arr elems => rfl

/-- Witness for the amended C9 on concrete params objects. -/
theorem route_param_normalization_witness :
    normalizeRouteParams (some [("userId", .str "u7")]) = [("userId", .str "u7")] ∧
    normalizeRouteParams
      (some [("path", .arr [.str "param", .str "42"])]) = [("id", .str "42")] ∧
    normalizeRouteParams (some [("path", .arr [.str "user", .str "u1"])]) = [] :=
  ⟨(route_param_normalization [("userId", .str "u7")]).2.1
      (by intro segs h; simp [jsGet] at h),
   (route_param_normalization [("path", .arr [.str "param", .str "42"])]).2.2.1
      (.str "42") [] rfl,
   (route_param_normalization [("path", .arr [.str "user", .str "u1"])]).2.2.2
      [.str "user", .str "u1"] rfl
      (by intro v rest h; simp at h)⟩

/-! ## Copy semantics of getConfig / getMetadata -/

theorem set_after_append_get (l : List JsObj) (o : JsObj) (r : Ref)
    (hr : r < l.length) (k : String) (v : JsVal) :
    (Heap.setField ⟨l ++ [o]⟩ l.length k v).getObj r = Heap.getObj ⟨l⟩ r := by
  simp only [Heap.setField, Heap.getObj]
  rw [List.getElem?_set_ne (Nat.ne_of_gt hr), List.getElem?_append_left hr]

/-- C10: `getConfig()` and keyless `getMetadata()` return fresh copies:
mutating the returned object leaves the store's config object, the bound
context's metadata bag, and hence every subsequent read derived from them,
unchanged. -/
theorem copy_returning_reads (s : HMgrState)
    (hc : s.configRef < s.heap.objs.length)
    (hm : ∀ mr, s.ctxMetaRef = some mr → mr < s.heap.objs.length)
    (k : String) (v : JsVal) :
    (readConfigH (mutateField (getConfigH s).2 (getConfigH s).1 k v) =
        readConfigH s ∧
      readMetadataH (mutateField (getConfigH s).2 (getConfigH s).1 k v) =
        readMetadataH s) ∧
    (∀ r s2, getMetadataAllH s = (some r, s2) →
      readConfigH (mutateField s2 r k v) = readConfigH s ∧
      readMetadataH (mutateField s2 r k v) = readMetadataH s) := by
  constructor
  · constructor
    · simp only [readConfigH, mutateField, getConfigH, Heap.alloc]
      exact set_after_append_get s.heap.objs _ s.configRef hc k v
    · simp only [readMetadataH, mutateField, getConfigH, Heap.alloc]
      cases hmr : s.ctxMetaRef with
      | none => rfl
      | some mr =>
        have := set_after_append_get s.heap.objs (s.heap.getObj s.configRef) mr
          (hm mr hmr) k v
        simp [this]
  · intro r s2 hget
    cases hmr : s.ctxMetaRef with
    | none => simp [getMetadataAllH, hmr] at hget
    | some mr =>
      have hlt := hm mr hmr
      simp only [getMetadataAllH, hmr, Heap.alloc] at hget
      injection hget with h1 h2
      injection h1 with h1
      subst h1
      subst h2
      constructor
      · simp only [readConfigH, mutateField]
        exact set_after_append_get s.heap.objs _ s.configRef hc k v
      · simp only [readMetadataH, mutateField, hmr]
        have := set_after_append_get s.heap.objs (s.heap.getObj mr) mr hlt k v
        simp [this]

/-- Witness for C10: a concrete two-object heap (config at 0, metadata at
1); mutating either returned copy leaves both reads unchanged. -/
theorem copy_returning_reads_witness :
    (readConfigH (mutateField (getConfigH sampleHeapState).2
        (getConfigH sampleHeapState).1 "enabled" (.boolean false)) =
        readConfigH sampleHeapState ∧
      readMetadataH (mutateField (getConfigH sampleHeapState).2
        (getConfigH sampleHeapState).1 "enabled" (.boolean false)) =
        readMetadataH sampleHeapState) ∧
    (∀ r s2, getMetadataAllH sampleHeapState = (some r, s2) →
      readConfigH (mutateField s2 r "enabled" (.boolean false)) =
        readConfigH sampleHeapState ∧
      readMetadataH (mutateField s2 r "enabled" (.boolean false)) =
        readMetadataH sampleHeapState) :=
  copy_returning_reads sampleHeapState (by decide)
    (by intro mr hmr; injection hmr with h; cases h; decide)
    "enabled" (.boolean false)

end Logitron
